import Mathlib

/-!
Verification of `src/gridplayer/geo/parse_sei.py`.

Shallow embedding conventions:
* A Python `bytes` buffer is a `List Nat` whose elements are < 256 (stated as a
  hypothesis where the arithmetic needs it).
* Python integers are `Nat`/`Int`; machine overflow does not occur in the source
  (Python has arbitrary precision integers).
* Fallible code returns `Option`: `none` models a raised Python exception
  (`ValueError` from a negative shift count, `IndexError` from an out-of-range
  index); `some` models normal return.
* Python `while`/`for` loops are modelled by structural recursion on a fuel
  argument that is exactly the loop's trip-count bound in the source
  (`bytes_remaining` for `refill`, `MAX_UVLC_LEADING_ZEROS + 1` for the UVLC
  leading-zero loop, the chunk list for the TS packet loop), so the embedding
  computes by kernel reduction.
-/

namespace GridPlayer

/-- Source: `MAX_UVLC_LEADING_ZEROS = 20`. -/
def MAX_UVLC_LEADING_ZEROS : Nat := 20

/-- Source: `UVLC_ERROR = -99999`. -/
def UVLC_ERROR : Int := -99999

/-- Source: `VIDEO_PID = 0x100`. -/
def VIDEO_PID : Nat := 0x100

/-- Source: `TS_PACKET_SIZE = 188`. -/
def TS_PACKET_SIZE : Nat := 188

/-- State of the Python `BitReader` class: `data`, `byte_pos`, `bytes_remaining`,
`bit_pos` (set in `__init__`, never used), `nextbits`, `nextbits_cnt`. -/
structure BitReader where
  data : List Nat
  byte_pos : Nat
  bytes_remaining : Nat
  bit_pos : Nat
  nextbits : Nat
  nextbits_cnt : Nat
deriving DecidableEq, Repr

/-- Body of `BitReader.refill`'s `while` loop.  The fuel is the value of
`bytes_remaining` at entry: the loop consumes one source byte per iteration, so
it iterates at most `bytes_remaining` times, and the guard `bytes_remaining > 0`
makes the fuel bound exact.  `self.data[self.byte_pos]` is modelled by
`List.getD`; every reachable state has `byte_pos < data.length` whenever
`bytes_remaining > 0`, so the default is never read. -/
def refillAux : Nat → BitReader → BitReader
  | 0, r => r
  | fuel + 1, r =>
    if r.nextbits_cnt ≤ 56 ∧ 0 < r.bytes_remaining then
      refillAux fuel
        { r with
          byte_pos := r.byte_pos + 1
          bytes_remaining := r.bytes_remaining - 1
          nextbits := (r.nextbits <<< 8) ||| r.data.getD r.byte_pos 0
          nextbits_cnt := r.nextbits_cnt + 8 }
    else r

/-- Source: `BitReader.refill`. -/
def BitReader.refill (r : BitReader) : BitReader :=
  refillAux r.bytes_remaining r

/-- Source: `BitReader.__init__`: zero-initialise the state and `refill`. -/
def BitReader.new (buffer : List Nat) : BitReader :=
  BitReader.refill
    { data := buffer, byte_pos := 0, bytes_remaining := buffer.length,
      bit_pos := 0, nextbits := 0, nextbits_cnt := 0 }

/-- Source: `BitReader.get_bits`.  When fewer than `n` bits are buffered even
after the refill, the Python source evaluates
`self.nextbits >> (self.nextbits_cnt - n)` with a negative shift count, which
raises `ValueError`; that branch is modelled by `none`. -/
def BitReader.get_bits (r0 : BitReader) (n : Nat) : Option (Nat × BitReader) :=
  let r := if r0.nextbits_cnt < n then r0.refill else r0
  if r.nextbits_cnt < n then
    none
  else
    some ((r.nextbits >>> (r.nextbits_cnt - n)) &&& ((1 <<< n) - 1),
      { r with
        nextbits_cnt := r.nextbits_cnt - n
        nextbits := r.nextbits &&& ((1 <<< (r.nextbits_cnt - n)) - 1) })

/-- Body of `BitReader.get_uvlc`.  `num_zeros` is the count of leading zero bits
read so far; the fuel is `MAX_UVLC_LEADING_ZEROS + 1 - num_zeros`, an exact
bound because the loop body returns `UVLC_ERROR` once `num_zeros` exceeds
`MAX_UVLC_LEADING_ZEROS`; the fuel-0 case is unreachable from `get_uvlc`. -/
def get_uvlc_aux : Nat → Nat → BitReader → Option (Int × BitReader)
  | 0, _, _ => none
  | fuel + 1, num_zeros, r =>
    match r.get_bits 1 with
    | none => none
    | some (bit, r1) =>
      if bit = 0 then
        if num_zeros + 1 > MAX_UVLC_LEADING_ZEROS then some (UVLC_ERROR, r1)
        else get_uvlc_aux fuel (num_zeros + 1) r1
      else
        if 0 < num_zeros then
          match r1.get_bits num_zeros with
          | none => none
          | some (offset, r2) =>
            some ((offset : Int) + ((1 <<< num_zeros : Nat) : Int) - 1, r2)
        else some (0, r1)

/-- Source: `BitReader.get_uvlc`. -/
def BitReader.get_uvlc (r : BitReader) : Option (Int × BitReader) :=
  get_uvlc_aux (MAX_UVLC_LEADING_ZEROS + 1) 0 r

/-- Source: `BitReader.get_svlc`.  The decoded `v` reaching the sign branch is a
nonnegative integer, so Python's `v & 1` agrees with `v % 2`, and `//` is floor
division (`Int.fdiv`). -/
def BitReader.get_svlc (r : BitReader) : Option (Int × BitReader) :=
  match r.get_uvlc with
  | none => none
  | some (v, r1) =>
    if v = 0 ∨ v = UVLC_ERROR then some (v, r1)
    else if v % 2 = 0 then some (-(Int.fdiv v 2), r1)
    else some (Int.fdiv (v + 1) 2, r1)

/-- Source: the 16-byte tag `b"_6dof_extension_"` (ASCII codes), used both by
`SEI_6DOF.is_valid` and by `find_6dof_extension_in_nal`. -/
def sixDofTag : List Nat :=
  [95, 54, 100, 111, 102, 95, 101, 120, 116, 101, 110, 115, 105, 111, 110, 95]

/-- Source: class `FieldOfViewInfo`.  `width = bottom_right_x - top_left_x` and
`height = bottom_right_y - top_left_y` may be negative in Python, hence `Int`. -/
structure FieldOfViewInfo where
  id : Nat
  x : Nat
  y : Nat
  width : Int
  height : Int
deriving DecidableEq, Repr

/-- Source: class `SEI_6DOF.__init__`.  Fields initialised to `None` in Python
(`stitching_layout`, `camera_model`, `background_depth_flag`,
`arrangement_flag`) are `Option Nat`; fields initialised to `0` are `Nat`;
`uuid_string` is the list of byte values accumulated via `chr`.  The four
`texture_*` list attributes are never touched by any code under `src/` and are
omitted. -/
structure SEI_6DOF where
  uuid_string : List Nat
  stitching_layout : Option Nat
  camera_number : Nat
  camera_model : Option Nat
  camera_resolution_x : Nat
  camera_resolution_y : Nat
  video_resolution_x : Nat
  video_resolution_y : Nat
  texture_padding_size : Nat
  background_texture_flag : Nat
  background_depth_flag : Option Nat
  arrangement_flag : Option Nat
  horizontal_half_fov : Nat
deriving DecidableEq, Repr

/-- Source: `SEI_6DOF.is_valid`: `self.uuid_string == "_6dof_extension_"`. -/
def SEI_6DOF.is_valid (s : SEI_6DOF) : Bool :=
  s.uuid_string = sixDofTag

/-- Source: the `for _ in range(16)` loop of `read_sei_6dof` that accumulates
`uuid_string` one `get_bits(8)` byte at a time (structural recursion on the
remaining iteration count). -/
def readUuid : Nat → BitReader → List Nat → Option (List Nat × BitReader)
  | 0, r, acc => some (acc, r)
  | n + 1, r, acc =>
    match r.get_bits 8 with
    | none => none
    | some (b, r1) => readUuid n r1 (acc ++ [b])

/-- Source: the `for _ in range(sei.camera_number)` loop of `read_sei_6dof`:
four 16-bit corner reads each followed by a marker bit, then 4 reserved bits,
then `fov_info_array.append(FieldOfViewInfo(len(fov_info_array)+1, ...))`. -/
def readFovLoop : Nat → BitReader → List FieldOfViewInfo →
    Option (List FieldOfViewInfo × BitReader)
  | 0, r, acc => some (acc, r)
  | n + 1, r, acc =>
    match r.get_bits 16 with
    | none => none
    | some (top_left_x, r1) =>
      match r1.get_bits 1 with
      | none => none
      | some (_, r2) =>
        match r2.get_bits 16 with
        | none => none
        | some (top_left_y, r3) =>
          match r3.get_bits 1 with
          | none => none
          | some (_, r4) =>
            match r4.get_bits 16 with
            | none => none
            | some (bottom_right_x, r5) =>
              match r5.get_bits 1 with
              | none => none
              | some (_, r6) =>
                match r6.get_bits 16 with
                | none => none
                | some (bottom_right_y, r7) =>
                  match r7.get_bits 1 with
                  | none => none
                  | some (_, r8) =>
                    match r8.get_bits 4 with
                    | none => none
                    | some (_, r9) =>
                      readFovLoop n r9
                        (acc ++ [{ id := acc.length + 1,
                                   x := top_left_x, y := top_left_y,
                                   width := (bottom_right_x : Int) - top_left_x,
                                   height := (bottom_right_y : Int) - top_left_y }])

/-- Source: `read_sei_6dof`.  The Python function mutates a fresh `SEI_6DOF`
field by field; an exception thrown by any `get_bits` call discards the local
object, which the embedding models by building the record only at the final
return (`none` = exception propagated, `some (none, [])` = the
`return None, []` taken on a tag mismatch). -/
def read_sei_6dof (r0 : BitReader) : Option (Option SEI_6DOF × List FieldOfViewInfo) :=
  match readUuid 16 r0 [] with
  | none => none
  | some (uuid, r1) =>
    if uuid ≠ sixDofTag then some (none, [])
    else
      match r1.get_bits 2 with
      | none => none
      | some (stitching_layout, r2) =>
        match r2.get_bits 16 with
        | none => none
        | some (camera_number, r3) =>
          match r3.get_bits 2 with
          | none => none
          | some (camera_model, r4) =>
            match r4.get_bits 1 with
            | none => none
            | some (_, r5) =>
              match r5.get_bits 16 with
              | none => none
              | some (camera_resolution_x, r6) =>
                match r6.get_bits 1 with
                | none => none
                | some (_, r7) =>
                  match r7.get_bits 16 with
                  | none => none
                  | some (camera_resolution_y, r8) =>
                    match r8.get_bits 1 with
                    | none => none
                    | some (_, r9) =>
                      match r9.get_bits 16 with
                      | none => none
                      | some (video_resolution_x, r10) =>
                        match r10.get_bits 1 with
                        | none => none
                        | some (_, r11) =>
                          match r11.get_bits 16 with
                          | none => none
                          | some (video_resolution_y, r12) =>
                            match r12.get_bits 1 with
                            | none => none
                            | some (_, r13) =>
                              match r13.get_bits 8 with
                              | none => none
                              | some (texture_padding_size, r14) =>
                                match r14.get_bits 1 with
                                | none => none
                                | some (background_texture_flag, r15) =>
                                  match r15.get_bits 1 with
                                  | none => none
                                  | some (background_depth_flag, r16) =>
                                    match r16.get_bits 1 with
                                    | none => none
                                    | some (_, r17) =>
                                      match r17.get_bits 1 with
                                      | none => none
                                      | some (arrangement_flag, r18) =>
                                        match r18.get_bits 8 with
                                        | none => none
                                        | some (horizontal_half_fov, r19) =>
                                          match r19.get_bits 3 with
                                          | none => none
                                          | some (_, r20) =>
                                            match readFovLoop camera_number r20 [] with
                                            | none => none
                                            | some (fov_info_array, _) =>
                                              some (some
                                                { uuid_string := uuid,
                                                  stitching_layout := some stitching_layout,
                                                  camera_number := camera_number,
                                                  camera_model := some camera_model,
                                                  camera_resolution_x := camera_resolution_x,
                                                  camera_resolution_y := camera_resolution_y,
                                                  video_resolution_x := video_resolution_x,
                                                  video_resolution_y := video_resolution_y,
                                                  texture_padding_size := texture_padding_size,
                                                  background_texture_flag := background_texture_flag,
                                                  background_depth_flag := some background_depth_flag,
                                                  arrangement_flag := some arrangement_flag,
                                                  horizontal_half_fov := horizontal_half_fov },
                                                fov_info_array)

/-- Source: the body of the packet loop in `extract_h265_nal_from_ts`, acting on
the accumulator state `(nal_data, start_of_nal)`.  `packet[i]` is modelled by
`packet[i]?` (`none` = Python `IndexError`); Python slices (`packet[a:b]`,
`packet[a:]`) never raise and are modelled by `drop`/`take`. -/
def processPacket (st : List Nat × Bool) (packet : List Nat) :
    Option (List Nat × Bool) :=
  match packet[0]? with
  | none => none
  | some b0 =>
    if b0 ≠ 0x47 then some st
    else
      match packet[1]?, packet[2]? with
      | some b1, some b2 =>
        if ((b1 &&& 0x1F) <<< 8) ||| b2 ≠ VIDEO_PID then some st
        else
          match packet[3]? with
          | none => none
          | some b3 =>
            let payload_unit_start := b1 &&& 0x40
            match (if b3 &&& 0x20 ≠ 0 then (packet[4]?).map (fun b4 => 4 + 1 + b4)
                   else some 4) with
            | none => none
            | some payload_start =>
              if TS_PACKET_SIZE ≤ payload_start then some st
              else
                if payload_unit_start ≠ 0 then
                  let nal1 := if st.2 then st.1 ++ [0, 0, 1] else st.1
                  if (packet.drop payload_start).take 3 = [0, 0, 1] then
                    match packet[payload_start + 8]? with
                    | none => none
                    | some b8 =>
                      some (nal1 ++ packet.drop (payload_start + 9 + (b8 &&& 0x0F)), true)
                  else some (nal1 ++ packet.drop payload_start, true)
                else some (st.1 ++ packet.drop payload_start, st.2)
      | _, _ => none

/-- The packet slices visited by `for i in range(0, len(ts_stream),
TS_PACKET_SIZE): packet = ts_stream[i:i + TS_PACKET_SIZE]`.  The fuel (the
total byte length) strictly dominates the iteration count. -/
def tsChunks : Nat → List Nat → List (List Nat)
  | 0, _ => []
  | _, [] => []
  | fuel + 1, l => l.take TS_PACKET_SIZE :: tsChunks fuel (l.drop TS_PACKET_SIZE)

/-- The packet loop of `extract_h265_nal_from_ts` over the chunk list. -/
def extractLoop : List (List Nat) → List Nat → Bool → Option (List Nat)
  | [], nal_data, _ => some nal_data
  | p :: ps, nal_data, start_of_nal =>
    match processPacket (nal_data, start_of_nal) p with
    | none => none
    | some (nal1, started1) => extractLoop ps nal1 started1

/-- Source: `extract_h265_nal_from_ts`. -/
def extract_h265_nal_from_ts (ts_stream : List Nat) : Option (List Nat) :=
  extractLoop (tsChunks ts_stream.length ts_stream) [] false

/-- Source: `find_6dof_extension_in_nal`: `nal_data.find(b"_6dof_extension_")`
returns the first index at which the tag occurs (`-1` if absent, modelled by
`none`), and the function returns the suffix `nal_data[idx:]`. -/
def find_6dof_extension_in_nal : List Nat → Option (List Nat)
  | [] => if sixDofTag.isPrefixOf ([] : List Nat) then some [] else none
  | a :: t =>
    if sixDofTag.isPrefixOf (a :: t) then some (a :: t)
    else find_6dof_extension_in_nal t

/-- Source: `process_ts_file`.  The JSON serialisation step
(`convert_to_json` + `json.dumps`) is a field-by-field mapping of the decoded
pair and is modelled by returning the pair itself; `some none` models the
Python `return None` paths ("Failed to extract NAL data", "Failed to find 6DOF
extension", "Failed to read SEI data"); the outer `none` models a propagated
exception.  `if not nal_data` / `if not new_nal` are Python truthiness tests on
`bytes`/`None`. -/
def process_ts_file (data : List Nat) :
    Option (Option (SEI_6DOF × List FieldOfViewInfo)) :=
  match extract_h265_nal_from_ts data with
  | none => none
  | some nal_data =>
    if nal_data = [] then some none
    else
      match find_6dof_extension_in_nal nal_data with
      | none => some none
      | some new_nal =>
        if new_nal = [] then some none
        else
          match read_sei_6dof (BitReader.new new_nal) with
          | none => none
          | some (sei_c, fov_info_array) =>
            match sei_c with
            | none => some none
            | some sei => some (some (sei, fov_info_array))

/-! ### Auxiliary definitions used by the claim statements -/

/-- Big-endian value of a byte list, accumulated exactly the way `refill`
accumulates bytes into `nextbits`: `acc := (acc << 8) | byte`. -/
def beBytesVal (l : List Nat) : Nat :=
  l.foldl (fun acc b => (acc <<< 8) ||| b) 0

/-- The `k`-byte big-endian representation of `val % 2^(8*k)`. -/
def natToBytesBE : Nat → Nat → List Nat
  | 0, _ => []
  | k + 1, val => ((val >>> (8 * k)) % 256) :: natToBytesBE k val

/-- The canonical unsigned exponential-Golomb code of `v`: with
`z = log2 (v+1)` leading zeros, the `2*z+1` code bits are exactly the binary
digits of `v + 1` (`z` zeros, a one, then the `z` offset bits), here placed in
the high bits of a 5-byte buffer (40 bits suffice for every `v < 2^16`). -/
def encodeUvlc (v : Nat) : List Nat :=
  natToBytesBE 5 ((v + 1) <<< (39 - 2 * Nat.log 2 (v + 1)))

/-- A packet chunk that `extract_h265_nal_from_ts` keeps: sync byte 0x47 and
13-bit PID (low 5 bits of byte 1, all of byte 2) equal to `VIDEO_PID`. -/
def isVideoPacket (p : List Nat) : Bool :=
  p.getD 0 0 == 0x47 &&
    (((p.getD 1 0 &&& 0x1F) <<< 8) ||| p.getD 2 0) == VIDEO_PID

/-- The payload-unit-start indicator: bit 0x40 of header byte 1. -/
def pusFlag (p : List Nat) : Bool :=
  p.getD 1 0 &&& 0x40 != 0

/-- Payload start offset: 4 header bytes, plus the adaptation field (1 length
byte + declared length) when bit 0x20 of byte 3 is set. -/
def payloadStart (p : List Nat) : Nat :=
  if p.getD 3 0 &&& 0x20 ≠ 0 then 4 + 1 + p.getD 4 0 else 4

/-- Payload start after additionally skipping a PES header (9 fixed bytes plus
the low 4 bits of the 9th byte) when the PES start-code signature is present. -/
def pesStart (p : List Nat) : Nat :=
  if (p.drop (payloadStart p)).take 3 = [0, 0, 1] then
    payloadStart p + 9 + (p.getD (payloadStart p + 8) 0 &&& 0x0F)
  else payloadStart p

/-- The payload bytes a kept packet contributes to the NAL buffer. -/
def payloadBytes (p : List Nat) : List Nat :=
  p.drop (if pusFlag p then pesStart p else payloadStart p)

/-- Modelled from the spec (§4.2): the demuxer output is each packet's payload
in order, with a 3-byte start code `00 00 01` inserted ahead of every
payload-unit-start except the first one seen (`seen` records whether a unit
start has already been detected). -/
def specAssemble : List (List Nat) → Bool → List Nat
  | [], _ => []
  | p :: ps, seen =>
    if pusFlag p then
      (if seen then [0, 0, 1] else []) ++ payloadBytes p ++ specAssemble ps true
    else payloadBytes p ++ specAssemble ps seen

/-- A well-formed video packet for the start-code insertion claim: full length,
sync byte, target PID, a payload that actually starts inside the packet, and —
when a PES signature would be skipped — the PES header-length byte in range. -/
def wfVideoPacket (p : List Nat) : Prop :=
  p.length = 188 ∧ p.getD 0 0 = 0x47 ∧
    ((p.getD 1 0 &&& 0x1F) <<< 8) ||| p.getD 2 0 = VIDEO_PID ∧
    payloadStart p < 188 ∧
    (pusFlag p = true ∧ (p.drop (payloadStart p)).take 3 = [0, 0, 1] →
      payloadStart p + 8 < 188)

/-- A chunk on which the packet loop cannot raise `IndexError`: every index the
loop dereferences is either never reached (sync/PID/start checks fail first) or
in range. -/
def chunkSafe (ck : List Nat) : Bool :=
  match ck[0]? with
  | none => false
  | some b0 =>
    b0 != 0x47 ||
      (match ck[1]?, ck[2]? with
       | some b1, some b2 =>
         (((b1 &&& 0x1F) <<< 8) ||| b2) != VIDEO_PID ||
           (match ck[3]? with
            | none => false
            | some b3 =>
              match (if b3 &&& 0x20 ≠ 0 then (ck[4]?).map (fun b4 => 4 + 1 + b4)
                     else some 4) with
              | none => false
              | some ps =>
                decide (TS_PACKET_SIZE ≤ ps) ||
                  (if b1 &&& 0x40 ≠ 0 then
                     (if (ck.drop ps).take 3 = [0, 0, 1] then (ck[ps + 8]?).isSome
                      else true)
                   else true))
       | _, _ => false)

/-- A chunk the demuxer skips without reading past its header: wrong sync byte,
or (with the PID bytes present) a PID different from `VIDEO_PID`. -/
def nonVideoChunk (ck : List Nat) : Prop :=
  ck.getD 0 0 ≠ 0x47 ∨
    (3 ≤ ck.length ∧ ((ck.getD 1 0 &&& 0x1F) <<< 8) ||| ck.getD 2 0 ≠ VIDEO_PID)

/-! ### Generic bit-arithmetic helpers -/

theorem or_shiftLeft_eq_add {a b k : Nat} (hb : b < 2 ^ k) :
    (a <<< k) ||| b = a * 2 ^ k + b := by
  apply Nat.eq_of_testBit_eq
  intro i
  rw [Nat.testBit_or, Nat.testBit_shiftLeft,
    show a * 2 ^ k + b = 2 ^ k * a + b by ring,
    Nat.testBit_mul_pow_two_add a hb i]
  by_cases h : i < k
  · simp [h, Nat.not_le.2 h]
  · have hbi : b.testBit i = false :=
      Nat.testBit_lt_two_pow
        (lt_of_lt_of_le hb (Nat.pow_le_pow_right (by norm_num) (Nat.not_lt.1 h)))
    simp [h, Nat.not_lt.1 h, hbi]

theorem and_one_shiftLeft_sub_one (x n : Nat) :
    x &&& ((1 <<< n) - 1) = x % 2 ^ n := by
  rw [Nat.one_shiftLeft, Nat.and_pow_two_sub_one_eq_mod]

/-! ### `refill` and constructor lemmas -/

theorem refillAux_stop (fuel : Nat) (r : BitReader)
    (h : ¬(r.nextbits_cnt ≤ 56 ∧ 0 < r.bytes_remaining)) :
    refillAux fuel r = r := by
  cases fuel with
  | zero => rfl
  | succ f => rw [refillAux, if_neg h]

theorem refillAux_cnt_le (fuel : Nat) : ∀ r : BitReader,
    (refillAux fuel r).nextbits_cnt ≤ r.nextbits_cnt + 8 * r.bytes_remaining := by
  induction fuel with
  | zero => intro r; simp [refillAux]
  | succ fuel ih =>
    intro r
    rw [refillAux]
    split
    · next h =>
      refine le_trans (ih _) ?_
      simp only
      omega
    · omega

theorem getD_of_drop_eq_cons : ∀ (D : List Nat) (p b : Nat) (t : List Nat),
    D.drop p = b :: t → D.getD p 0 = b := by
  intro D
  induction D with
  | nil => intro p b t h; simp at h
  | cons a D ih =>
    intro p b t h
    cases p with
    | zero =>
      simp only [List.drop_zero] at h
      simp [List.getD_cons_zero, (List.cons.injEq .. ▸ h).1]
    | succ p =>
      simp only [List.drop_succ_cons] at h
      simpa [List.getD_cons_succ] using ih p b t h

theorem drop_succ_of_drop_eq_cons (D : List Nat) (p b : Nat) (t : List Nat)
    (h : D.drop p = b :: t) : D.drop (p + 1) = t := by
  rw [← List.drop_drop, h, List.drop_succ_cons, List.drop_zero]

/-- What `refill` does: starting from a state whose unread bytes are `l ++ rest`,
it loads exactly the bytes of `l` into the accumulator provided that the
accumulator has room for them (`c + 8 * l.length ≤ 64`) and that it stops right
after `l` (accumulator past 56 bits, or nothing left). -/
theorem refillAux_load : ∀ (l D rest : List Nat) (p bp N c rem fuel : Nat),
    D.drop p = l ++ rest → rem = l.length + rest.length →
    c + 8 * l.length ≤ 64 → (56 < c + 8 * l.length ∨ rest = []) →
    l.length ≤ fuel →
    refillAux fuel ⟨D, p, rem, bp, N, c⟩ =
      ⟨D, p + l.length, rest.length, bp,
        l.foldl (fun acc b => (acc <<< 8) ||| b) N, c + 8 * l.length⟩ := by
  intro l
  induction l with
  | nil =>
    intro D rest p bp N c rem fuel hd hrem hc hstop hfuel
    simp only [List.length_nil, Nat.mul_zero, Nat.add_zero, Nat.zero_add] at hrem hstop hc
    have hne : ¬((⟨D, p, rem, bp, N, c⟩ : BitReader).nextbits_cnt ≤ 56 ∧
        0 < (⟨D, p, rem, bp, N, c⟩ : BitReader).bytes_remaining) := by
      show ¬(c ≤ 56 ∧ 0 < rem)
      rcases hstop with h | h
      · omega
      · subst h
        simp only [List.length_nil] at hrem
        omega
    rw [refillAux_stop _ _ hne]
    simp only [List.length_nil, List.foldl_nil, Nat.add_zero, Nat.mul_zero]
    rw [show rem = rest.length from hrem]
  | cons b t ih =>
    intro D rest p bp N c rem fuel hd hrem hc hstop hfuel
    simp only [List.length_cons] at hrem hc hstop hfuel
    obtain ⟨f, rfl⟩ : ∃ f, fuel = f + 1 := ⟨fuel - 1, by omega⟩
    rw [refillAux, if_pos (⟨show c ≤ 56 by omega, show 0 < rem by omega⟩ :
      (⟨D, p, rem, bp, N, c⟩ : BitReader).nextbits_cnt ≤ 56 ∧
        0 < (⟨D, p, rem, bp, N, c⟩ : BitReader).bytes_remaining)]
    have hdb : D.getD p 0 = b := getD_of_drop_eq_cons D p b (t ++ rest) (by simpa using hd)
    have hdt : D.drop (p + 1) = t ++ rest :=
      drop_succ_of_drop_eq_cons D p b (t ++ rest) (by simpa using hd)
    show refillAux f ⟨D, p + 1, rem - 1, bp, (N <<< 8) ||| D.getD p 0, c + 8⟩ = _
    rw [hdb]
    have h1 : rem - 1 = t.length + rest.length := by omega
    have h2 : c + 8 + 8 * t.length ≤ 64 := by omega
    have h3 : 56 < c + 8 + 8 * t.length ∨ rest = [] := hstop.imp (fun hh => by omega) id
    have h4 : t.length ≤ f := by omega
    rw [ih D rest (p + 1) bp ((N <<< 8) ||| b) (c + 8) (rem - 1) f hdt h1 h2 h3 h4]
    rw [List.foldl_cons]
    simp only [List.length_cons]
    congr 1 <;> omega

/-- The `BitReader` constructor loads the first `min length 8` bytes of the
buffer into the accumulator. -/
theorem new_spec (buf : List Nat) :
    BitReader.new buf =
      ⟨buf, min buf.length 8, buf.length - 8, 0, beBytesVal (buf.take 8),
        8 * min buf.length 8⟩ := by
  by_cases h : buf.length ≤ 8
  · have hload := refillAux_load buf buf [] 0 0 0 0 buf.length buf.length
      (by simp) (by simp) (by omega) (Or.inr rfl) le_rfl
    rw [BitReader.new, BitReader.refill]
    show refillAux buf.length ⟨buf, 0, buf.length, 0, 0, 0⟩ = _
    rw [hload, beBytesVal, List.take_of_length_le h]
    simp only [List.length_nil, Nat.zero_add]
    congr 1 <;> omega
  · have hl8 : (buf.take 8).length = 8 := by
      rw [List.length_take]
      omega
    have hload := refillAux_load (buf.take 8) buf (buf.drop 8) 0 0 0 0 buf.length buf.length
      (by simp) (by rw [hl8, List.length_drop]; omega) (by rw [hl8]) (by rw [hl8]; omega)
      (by rw [hl8]; omega)
    rw [BitReader.new, BitReader.refill]
    show refillAux buf.length ⟨buf, 0, buf.length, 0, 0, 0⟩ = _
    rw [hload, beBytesVal, hl8, List.length_drop]
    simp only [Nat.zero_add]
    congr 1 <;> omega

/-! ### `get_bits` lemmas -/

/-- Normal form of `get_bits` when enough bits are already buffered (no refill
happens, the read slices the top `n` bits off the accumulator). -/
theorem get_bits_spec (r : BitReader) (n : Nat) (h : n ≤ r.nextbits_cnt) :
    r.get_bits n = some (r.nextbits / 2 ^ (r.nextbits_cnt - n) % 2 ^ n,
      { r with nextbits_cnt := r.nextbits_cnt - n,
               nextbits := r.nextbits % 2 ^ (r.nextbits_cnt - n) }) := by
  have h' : ¬ r.nextbits_cnt < n := Nat.not_lt.2 h
  simp [BitReader.get_bits, h', Nat.shiftRight_eq_div_pow, and_one_shiftLeft_sub_one]

theorem get_bits_val_lt {r r' : BitReader} {n v : Nat}
    (h : r.get_bits n = some (v, r')) : v < 2 ^ n := by
  simp only [BitReader.get_bits] at h
  by_cases h2 : (if r.nextbits_cnt < n then r.refill else r).nextbits_cnt < n
  · rw [if_pos h2] at h
    exact absurd h (by simp)
  · rw [if_neg h2, Option.some.injEq, Prod.mk.injEq] at h
    rw [← h.1, and_one_shiftLeft_sub_one]
    exact Nat.mod_lt _ (Nat.two_pow_pos n)

theorem natToBytesBE_length : ∀ k val : Nat, (natToBytesBE k val).length = k := by
  intro k
  induction k with
  | zero => intro val; rfl
  | succ k ih => intro val; simp [natToBytesBE, ih]

theorem foldl_natToBytesBE : ∀ (k val a : Nat),
    (natToBytesBE k val).foldl (fun acc b => (acc <<< 8) ||| b) a =
      a * 2 ^ (8 * k) + val % 2 ^ (8 * k) := by
  intro k
  induction k with
  | zero => intro val a; simp [natToBytesBE, Nat.mod_one]
  | succ k ih =>
    intro val a
    rw [natToBytesBE, List.foldl_cons, ih]
    have hd : (val >>> (8 * k)) % 256 < 2 ^ 8 := Nat.mod_lt _ (by norm_num)
    rw [or_shiftLeft_eq_add hd]
    have hmm : val % 2 ^ (8 * (k + 1)) =
        val % 2 ^ (8 * k) + 2 ^ (8 * k) * (val / 2 ^ (8 * k) % 256) := by
      rw [show 8 * (k + 1) = 8 * k + 8 by ring, pow_add]
      exact Nat.mod_mul
    rw [hmm, Nat.shiftRight_eq_div_pow]
    ring

theorem beBytesVal_natToBytesBE (k val : Nat) :
    beBytesVal (natToBytesBE k val) = val % 2 ^ (8 * k) := by
  rw [beBytesVal, foldl_natToBytesBE]
  simp

/-! ### Claim C1 -/

/-- Claim C1, counterexample: over the 1-byte buffer `[0xAB]` (8 bits
available), `get_bits 9` requests more bits than remain; the claim says the
read completes with the remaining bits zero-filled, but the code raises
`ValueError` (`nextbits >> (nextbits_cnt - 9)` with `nextbits_cnt = 8`),
modelled by `none`. -/
theorem claim_C1_counterexample : (BitReader.new [171]).get_bits 9 = none := by
  decide

/-- Claim C1 (amended): for every `BitReader` state and every read of `n` bits,
when fewer than `n` bits remain (buffered plus unread source bytes), `get_bits`
does not return zero-filled bits — it fails (Python raises `ValueError` from a
negative shift count). -/
theorem claim_C1_amended (r : BitReader) (n : Nat)
    (h : r.nextbits_cnt + 8 * r.bytes_remaining < n) : r.get_bits n = none := by
  have h1 : r.nextbits_cnt < n := by omega
  have h2 : r.refill.nextbits_cnt < n := by
    have := refillAux_cnt_le r.bytes_remaining r
    rw [BitReader.refill]
    omega
  simp [BitReader.get_bits, h1, h2]

/-- Claim C1, witness for the amended theorem at the concrete reader over
`[0xAB]` with `n = 9`. -/
theorem claim_C1_witness :
    (BitReader.new [171]).nextbits_cnt + 8 * (BitReader.new [171]).bytes_remaining < 9 ∧
      (BitReader.new [171]).get_bits 9 = none :=
  ⟨by decide, claim_C1_amended (BitReader.new [171]) 9 (by decide)⟩

/-! ### Claim C10 -/

theorem get_uvlc_aux_range : ∀ (fuel k : Nat) (r : BitReader) (v : Int) (r' : BitReader),
    k ≤ 20 → get_uvlc_aux fuel k r = some (v, r') →
    v = UVLC_ERROR ∨ (0 ≤ v ∧ v ≤ 2 ^ 21 - 2) := by
  intro fuel
  induction fuel with
  | zero =>
    intro k r v r' hk h
    exact absurd h (by simp [get_uvlc_aux])
  | succ fuel ih =>
    intro k r v r' hk h
    rw [get_uvlc_aux] at h
    cases hg : r.get_bits 1 with
    | none => rw [hg] at h; exact absurd h (by simp)
    | some br =>
      obtain ⟨bit, r1⟩ := br
      rw [hg] at h
      dsimp only at h
      by_cases hb : bit = 0
      · rw [if_pos hb] at h
        by_cases hz : k + 1 > MAX_UVLC_LEADING_ZEROS
        · rw [if_pos hz] at h
          simp only [Option.some.injEq, Prod.mk.injEq] at h
          exact Or.inl h.1.symm
        · rw [if_neg hz] at h
          refine ih (k + 1) r1 v r' ?_ h
          simp only [MAX_UVLC_LEADING_ZEROS] at hz
          omega
      · rw [if_neg hb] at h
        by_cases hk0 : 0 < k
        · rw [if_pos hk0] at h
          cases hg2 : r1.get_bits k with
          | none => rw [hg2] at h; exact absurd h (by simp)
          | some or2 =>
            obtain ⟨offset, r2⟩ := or2
            rw [hg2] at h
            simp only [Option.some.injEq, Prod.mk.injEq] at h
            have hlt : offset < 2 ^ k := get_bits_val_lt hg2
            refine Or.inr ?_
            rw [← h.1, Nat.one_shiftLeft]
            have hlt' : (offset : Int) < (2 : Int) ^ k := by exact_mod_cast hlt
            have hle : ((2 : Int)) ^ k ≤ 1048576 := by
              have : (2 : Nat) ^ k ≤ 2 ^ 20 := Nat.pow_le_pow_right (by norm_num) hk
              exact_mod_cast this
            have hge : (1 : Int) ≤ 2 ^ k := by
              have : (1 : Nat) ≤ 2 ^ k := Nat.one_le_two_pow
              exact_mod_cast this
            have hcast : (((2 : Nat) ^ k : Nat) : Int) = (2 : Int) ^ k := by push_cast; ring
            rw [hcast]
            constructor
            · omega
            · have hg21 : (2 : Int) ^ 21 - 2 = 2097150 := by norm_num
              rw [hg21]
              omega
        · rw [if_neg hk0] at h
          simp only [Option.some.injEq, Prod.mk.injEq] at h
          refine Or.inr ?_
          rw [← h.1]
          norm_num

/-- Claim C10: whenever `get_uvlc` returns normally, its value is either the
sentinel `UVLC_ERROR = -99999` or a nonnegative integer at most `2^21 - 2`
(at most 20 leading zeros, so `offset + 2^zeros - 1 ≤ (2^20 - 1) + 2^20 - 1`);
in particular the negative sentinel never collides with a decodable value. -/
theorem claim_C10 (r r' : BitReader) (v : Int)
    (h : r.get_uvlc = some (v, r')) :
    v = UVLC_ERROR ∨ (0 ≤ v ∧ v ≤ 2 ^ 21 - 2) :=
  get_uvlc_aux_range (MAX_UVLC_LEADING_ZEROS + 1) 0 r v r' (by norm_num) h

/-- Claim C10, witness: the reader over `[0x80]` decodes the UVLC value 0. -/
theorem claim_C10_witness :
    (BitReader.new [128]).get_uvlc = some (0, ⟨[128], 1, 0, 0, 0, 7⟩) ∧
      ((0 : Int) = UVLC_ERROR ∨ (0 ≤ (0 : Int) ∧ (0 : Int) ≤ 2 ^ 21 - 2)) :=
  ⟨by decide, claim_C10 (BitReader.new [128]) ⟨[128], 1, 0, 0, 0, 7⟩ 0 (by decide)⟩

/-! ### Claim C8 -/

/-- Claim C8: for every 32-bit value stored most-significant-bit-first in a
4-byte buffer and every `n` in 1..32, `get_bits n` followed by
`get_bits (32-n)` on a fresh `BitReader` yields two values whose concatenation
(first value shifted left by `32-n`, OR second value) is the original value. -/
theorem claim_C8 (V n : Nat) (hV : V < 2 ^ 32) (h1 : 1 ≤ n) (h2 : n ≤ 32) :
    ∃ v1 r1 v2 r2,
      (BitReader.new (natToBytesBE 4 V)).get_bits n = some (v1, r1) ∧
        r1.get_bits (32 - n) = some (v2, r2) ∧
        (v1 <<< (32 - n)) ||| v2 = V := by
  have hlen : (natToBytesBE 4 V).length = 4 := natToBytesBE_length 4 V
  have hbe : beBytesVal ((natToBytesBE 4 V).take 8) = V := by
    rw [List.take_of_length_le (by rw [hlen]; norm_num), beBytesVal_natToBytesBE]
    exact Nat.mod_eq_of_lt (by simpa using hV)
  have hr0 : BitReader.new (natToBytesBE 4 V) =
      ⟨natToBytesBE 4 V, 4, 0, 0, V, 32⟩ := by
    rw [new_spec, hlen, hbe]
    rfl
  have hv1 : V / 2 ^ (32 - n) % 2 ^ n = V / 2 ^ (32 - n) := by
    refine Nat.mod_eq_of_lt ?_
    rw [Nat.div_lt_iff_lt_mul (Nat.two_pow_pos _), ← pow_add]
    rw [show n + (32 - n) = 32 by omega]
    exact hV
  have hread1 : (BitReader.new (natToBytesBE 4 V)).get_bits n =
      some (V / 2 ^ (32 - n),
        ⟨natToBytesBE 4 V, 4, 0, 0, V % 2 ^ (32 - n), 32 - n⟩) := by
    rw [hr0, get_bits_spec ⟨natToBytesBE 4 V, 4, 0, 0, V, 32⟩ n (show n ≤ 32 by omega)]
    dsimp only
    rw [hv1]
  have hread2 : (⟨natToBytesBE 4 V, 4, 0, 0, V % 2 ^ (32 - n), 32 - n⟩ :
      BitReader).get_bits (32 - n) =
      some (V % 2 ^ (32 - n), ⟨natToBytesBE 4 V, 4, 0, 0, 0, 0⟩) := by
    rw [get_bits_spec ⟨natToBytesBE 4 V, 4, 0, 0, V % 2 ^ (32 - n), 32 - n⟩ (32 - n)
      (show 32 - n ≤ 32 - n from le_rfl)]
    dsimp only
    simp only [Nat.sub_self, pow_zero, Nat.div_one, Nat.mod_one,
      Nat.mod_eq_of_lt (Nat.mod_lt V (Nat.two_pow_pos (32 - n)))]
  refine ⟨V / 2 ^ (32 - n), _, V % 2 ^ (32 - n), _, hread1, hread2, ?_⟩
  rw [or_shiftLeft_eq_add (Nat.mod_lt V (Nat.two_pow_pos (32 - n))),
    Nat.mul_comm (V / 2 ^ (32 - n)) (2 ^ (32 - n))]
  exact Nat.div_add_mod V (2 ^ (32 - n))

/-- Claim C8, witness at `V = 0xDEADBEEF`, `n = 13`. -/
theorem claim_C8_witness :
    (0xDEADBEEF : Nat) < 2 ^ 32 ∧ (1 : Nat) ≤ 13 ∧ (13 : Nat) ≤ 32 ∧
      ∃ v1 r1 v2 r2,
        (BitReader.new (natToBytesBE 4 0xDEADBEEF)).get_bits 13 = some (v1, r1) ∧
          r1.get_bits (32 - 13) = some (v2, r2) ∧
          (v1 <<< (32 - 13)) ||| v2 = 0xDEADBEEF :=
  ⟨by decide, by decide, by decide,
    claim_C8 0xDEADBEEF 13 (by decide) (by decide) (by decide)⟩

/-! ### Claims C3 and C4: exponential-Golomb decoding -/

theorem layered_div (A rest M : Nat) (hrest : rest < 2 ^ M) :
    (A * 2 ^ M + rest) / 2 ^ M = A := by
  rw [Nat.mul_comm A (2 ^ M), Nat.mul_add_div (Nat.two_pow_pos M),
    Nat.div_eq_of_lt hrest, Nat.add_zero]

theorem layered_mod (A rest M : Nat) (hrest : rest < 2 ^ M) :
    (A * 2 ^ M + rest) % 2 ^ M = rest := by
  rw [Nat.mul_comm A (2 ^ M), Nat.mul_add_mod, Nat.mod_eq_of_lt hrest]

/-- Running the UVLC loop with `k` zeros already counted over a register whose
top bits are `z` zeros, a one, and a `Z`-bit offset (`k + z = Z ≤ 20`) returns
`offset + 2^Z - 1`. -/
theorem get_uvlc_aux_decode : ∀ (z Z k fuel : Nat) (r : BitReader) (offset rest : Nat),
    k + z = Z → Z ≤ 20 → fuel = 21 - k →
    z + 1 + Z ≤ r.nextbits_cnt →
    offset < 2 ^ Z → rest < 2 ^ (r.nextbits_cnt - (z + 1 + Z)) →
    r.nextbits = (2 ^ Z + offset) * 2 ^ (r.nextbits_cnt - (z + 1 + Z)) + rest →
    ∃ r', get_uvlc_aux fuel k r = some ((offset : Int) + 2 ^ Z - 1, r') := by
  intro z
  induction z with
  | zero =>
    intro Z k fuel r offset rest hkz hZ hfuel hc hoff hrest hN
    obtain rfl : k = Z := by omega
    obtain ⟨dta, bpos, brem, bitp, N, c⟩ := r
    dsimp only at hc hrest hN ⊢
    have hc' : k + 1 ≤ c := by omega
    have he : c - (0 + 1 + k) = c - (k + 1) := by omega
    rw [he] at hrest hN
    obtain ⟨f, rfl⟩ : ∃ f, fuel = f + 1 := ⟨fuel - 1, by omega⟩
    have hMZ : c - 1 = (c - (k + 1)) + k := by omega
    have hB : offset * 2 ^ (c - (k + 1)) + rest < 2 ^ ((c - (k + 1)) + k) := by
      have h1 : offset * 2 ^ (c - (k + 1)) + rest < (offset + 1) * 2 ^ (c - (k + 1)) := by
        have := Nat.add_lt_add_left hrest (offset * 2 ^ (c - (k + 1)))
        calc offset * 2 ^ (c - (k + 1)) + rest
            < offset * 2 ^ (c - (k + 1)) + 2 ^ (c - (k + 1)) := this
          _ = (offset + 1) * 2 ^ (c - (k + 1)) := by ring
      have h2 : (offset + 1) * 2 ^ (c - (k + 1)) ≤ 2 ^ k * 2 ^ (c - (k + 1)) :=
        Nat.mul_le_mul_right _ (by omega)
      calc offset * 2 ^ (c - (k + 1)) + rest
          < 2 ^ k * 2 ^ (c - (k + 1)) := lt_of_lt_of_le h1 h2
        _ = 2 ^ ((c - (k + 1)) + k) := by rw [← pow_add]; ring_nf
    have hN' : N = 1 * 2 ^ ((c - (k + 1)) + k) + (offset * 2 ^ (c - (k + 1)) + rest) := by
      rw [hN, pow_add]
      ring
    have htop : N / 2 ^ (c - 1) = 1 := by
      rw [hMZ, hN']
      exact layered_div 1 _ _ hB
    have hmod : N % 2 ^ (c - 1) = offset * 2 ^ (c - (k + 1)) + rest := by
      rw [hMZ, hN']
      exact layered_mod 1 _ _ hB
    rw [get_uvlc_aux,
      get_bits_spec ⟨dta, bpos, brem, bitp, N, c⟩ 1 (show 1 ≤ c by omega)]
    dsimp only
    have hbit : N / 2 ^ (c - 1) % 2 ^ 1 = 1 := by rw [htop]; decide
    rw [hbit, if_neg (by norm_num : ¬(1 : Nat) = 0)]
    by_cases hk0 : 0 < k
    · rw [if_pos hk0,
        get_bits_spec ⟨dta, bpos, brem, bitp, N % 2 ^ (c - 1), c - 1⟩ k
          (show k ≤ c - 1 by omega)]
      dsimp only
      have he2 : c - 1 - k = c - (k + 1) := by omega
      have hval : N % 2 ^ (c - 1) / 2 ^ (c - 1 - k) % 2 ^ k = offset := by
        rw [hmod, he2, layered_div offset rest _ hrest, Nat.mod_eq_of_lt hoff]
      rw [hval]
      have hval2 : ((offset : Int) + ((1 <<< k : Nat) : Int) - 1) =
          (offset : Int) + 2 ^ k - 1 := by
        rw [Nat.one_shiftLeft]
        push_cast
        ring
      rw [hval2]
      exact ⟨_, rfl⟩
    · rw [if_neg hk0]
      obtain rfl : k = 0 := by omega
      obtain rfl : offset = 0 := by
        have h1 : offset < 1 := by simpa using hoff
        omega
      have hv0 : ((0 : Nat) : Int) + 2 ^ 0 - 1 = (0 : Int) := by norm_num
      rw [hv0]
      exact ⟨_, rfl⟩
  | succ z ih =>
    intro Z k fuel r offset rest hkz hZ hfuel hc hoff hrest hN
    obtain ⟨dta, bpos, brem, bitp, N, c⟩ := r
    dsimp only at hc hrest hN ⊢
    obtain ⟨f, rfl⟩ : ∃ f, fuel = f + 1 := ⟨fuel - 1, by omega⟩
    have hNlt : N < 2 ^ (c - (z + 1)) := by
      have h1 : 2 ^ Z + offset < 2 ^ (Z + 1) := by
        have : (2 : Nat) ^ (Z + 1) = 2 ^ Z + 2 ^ Z := by ring
        omega
      calc N = (2 ^ Z + offset) * 2 ^ (c - (z + 1 + 1 + Z)) + rest := hN
        _ < (2 ^ Z + offset) * 2 ^ (c - (z + 1 + 1 + Z)) + 2 ^ (c - (z + 1 + 1 + Z)) := by
            omega
        _ = (2 ^ Z + offset + 1) * 2 ^ (c - (z + 1 + 1 + Z)) := by ring
        _ ≤ 2 ^ (Z + 1) * 2 ^ (c - (z + 1 + 1 + Z)) := Nat.mul_le_mul_right _ (by omega)
        _ = 2 ^ ((Z + 1) + (c - (z + 1 + 1 + Z))) := by rw [← pow_add]
        _ ≤ 2 ^ (c - (z + 1)) := Nat.pow_le_pow_right (by norm_num) (by omega)
    have hNlt1 : N < 2 ^ (c - 1) :=
      lt_of_lt_of_le hNlt (Nat.pow_le_pow_right (by norm_num) (by omega))
    have htop : N / 2 ^ (c - 1) = 0 := Nat.div_eq_of_lt hNlt1
    rw [get_uvlc_aux,
      get_bits_spec ⟨dta, bpos, brem, bitp, N, c⟩ 1 (show 1 ≤ c by omega)]
    dsimp only
    have hbit : N / 2 ^ (c - 1) % 2 ^ 1 = 0 := by rw [htop]; decide
    rw [hbit, if_pos rfl, if_neg (show ¬k + 1 > MAX_UVLC_LEADING_ZEROS by
      simp only [MAX_UVLC_LEADING_ZEROS]
      omega)]
    have hmod : N % 2 ^ (c - 1) = N := Nat.mod_eq_of_lt hNlt1
    refine ih Z (k + 1) f ⟨dta, bpos, brem, bitp, N % 2 ^ (c - 1), c - 1⟩ offset rest
      (by omega) hZ (by omega) (show z + 1 + Z ≤ c - 1 by omega) hoff ?_ ?_
    · show rest < 2 ^ (c - 1 - (z + 1 + Z))
      have he3 : c - 1 - (z + 1 + Z) = c - (z + 1 + 1 + Z) := by omega
      rw [he3]
      exact hrest
    · show N % 2 ^ (c - 1) = (2 ^ Z + offset) * 2 ^ (c - 1 - (z + 1 + Z)) + rest
      rw [hmod]
      have he3 : c - 1 - (z + 1 + Z) = c - (z + 1 + 1 + Z) := by omega
      rw [he3]
      exact hN

/-- Reading from a register whose top `j` bits are all zero with `k` zeros
already counted (`j + k = 21`) drives the UVLC loop into the leading-zero cap
and returns the error sentinel. -/
theorem get_uvlc_aux_zeros : ∀ (j k : Nat) (r : BitReader),
    j + k = 21 → k ≤ 20 → j ≤ r.nextbits_cnt →
    r.nextbits < 2 ^ (r.nextbits_cnt - j) →
    ∃ r', get_uvlc_aux j k r = some (UVLC_ERROR, r') := by
  intro j
  induction j with
  | zero =>
    intro k r hjk hk
    exact absurd hjk (by omega)
  | succ j ih =>
    intro k r hjk hk hc hN
    obtain ⟨dta, bpos, brem, bitp, N, c⟩ := r
    dsimp only at hc hN ⊢
    have hNlt1 : N < 2 ^ (c - 1) :=
      lt_of_lt_of_le hN (Nat.pow_le_pow_right (by norm_num) (by omega))
    rw [get_uvlc_aux,
      get_bits_spec ⟨dta, bpos, brem, bitp, N, c⟩ 1 (show 1 ≤ c by omega)]
    dsimp only
    have hbit : N / 2 ^ (c - 1) % 2 ^ 1 = 0 := by rw [Nat.div_eq_of_lt hNlt1]; decide
    rw [hbit, if_pos rfl]
    by_cases hk20 : k + 1 > MAX_UVLC_LEADING_ZEROS
    · rw [if_pos hk20]
      exact ⟨_, rfl⟩
    · rw [if_neg hk20]
      simp only [MAX_UVLC_LEADING_ZEROS] at hk20
      have hmod : N % 2 ^ (c - 1) = N := Nat.mod_eq_of_lt hNlt1
      refine ih (k + 1) ⟨dta, bpos, brem, bitp, N % 2 ^ (c - 1), c - 1⟩
        (by omega) (by omega) (show j ≤ c - 1 by omega) ?_
      show N % 2 ^ (c - 1) < 2 ^ (c - 1 - j)
      rw [hmod]
      exact lt_of_lt_of_le hN (Nat.pow_le_pow_right (by norm_num) (by omega))

theorem beBytesVal_cons_zero (l : List Nat) : beBytesVal (0 :: l) = beBytesVal l := by
  rw [beBytesVal, beBytesVal, List.foldl_cons]
  norm_num

theorem foldl_byte_bound : ∀ (l : List Nat) (a : Nat), (∀ b ∈ l, b < 256) →
    l.foldl (fun acc b => (acc <<< 8) ||| b) a < (a + 1) * 2 ^ (8 * l.length) := by
  intro l
  induction l with
  | nil => intro a _; simp
  | cons b t ih =>
    intro a hb
    rw [List.foldl_cons, or_shiftLeft_eq_add (show b < 2 ^ 8 from hb b (by simp))]
    have h1 := ih (a * 2 ^ 8 + b) (fun x hx => hb x (by simp [hx]))
    refine lt_of_lt_of_le h1 ?_
    have h2 : a * 2 ^ 8 + b + 1 ≤ (a + 1) * 2 ^ 8 := by
      have : b < 2 ^ 8 := hb b (by simp)
      nlinarith
    calc (a * 2 ^ 8 + b + 1) * 2 ^ (8 * t.length)
        ≤ (a + 1) * 2 ^ 8 * 2 ^ (8 * t.length) := Nat.mul_le_mul_right _ h2
      _ = (a + 1) * 2 ^ (8 * (t.length + 1)) := by
          rw [Nat.mul_assoc, ← pow_add]
          ring_nf
      _ = (a + 1) * 2 ^ (8 * (b :: t).length) := by rw [List.length_cons]

theorem beBytesVal_lt (l : List Nat) (hb : ∀ b ∈ l, b < 256) :
    beBytesVal l < 2 ^ (8 * l.length) := by
  have := foldl_byte_bound l 0 hb
  rw [beBytesVal]
  omega

/-- Claim C3: for every `v` in `[0, 2^16)`, decoding the canonical unsigned
exponential-Golomb encoding of `v` (with `z = log2 (v+1) ≤ 16 ≤ 20` leading
zero bits) with `get_uvlc` returns `v`: the loop counts the `z` zeros, reads a
`z`-bit offset and returns `offset + 2^z - 1 = v`. -/
theorem claim_C3 (v : Nat) (hv : v < 2 ^ 16) :
    ∃ r', (BitReader.new (encodeUvlc v)).get_uvlc = some ((v : Int), r') := by
  have hle : 2 ^ Nat.log 2 (v + 1) ≤ v + 1 := Nat.pow_log_le_self 2 (by omega)
  have hlt : v + 1 < 2 ^ (Nat.log 2 (v + 1) + 1) :=
    Nat.lt_pow_succ_log_self (by norm_num) (v + 1)
  have hz16 : Nat.log 2 (v + 1) ≤ 16 := by
    have h1 : v + 1 ≤ 2 ^ 16 := by omega
    calc Nat.log 2 (v + 1) ≤ Nat.log 2 (2 ^ 16) := Nat.log_mono_right h1
      _ = 16 := Nat.log_pow (by norm_num) 16
  set z := Nat.log 2 (v + 1) with hzdef
  have hpow : (2 : Nat) ^ (z + 1) = 2 ^ z + 2 ^ z := by ring
  have hXlt : (v + 1) * 2 ^ (39 - 2 * z) < 2 ^ 40 := by
    calc (v + 1) * 2 ^ (39 - 2 * z) < 2 ^ (z + 1) * 2 ^ (39 - 2 * z) :=
        (Nat.mul_lt_mul_right (Nat.two_pow_pos _)).mpr hlt
      _ = 2 ^ ((z + 1) + (39 - 2 * z)) := by rw [← pow_add]
      _ ≤ 2 ^ 40 := Nat.pow_le_pow_right (by norm_num) (by omega)
  have hbe : beBytesVal (encodeUvlc v) = (v + 1) * 2 ^ (39 - 2 * z) := by
    rw [encodeUvlc, ← hzdef, beBytesVal_natToBytesBE, Nat.shiftLeft_eq]
    exact Nat.mod_eq_of_lt (by simpa using hXlt)
  have hlen : (encodeUvlc v).length = 5 := natToBytesBE_length 5 _
  have hr0 : BitReader.new (encodeUvlc v) =
      ⟨encodeUvlc v, 5, 0, 0, (v + 1) * 2 ^ (39 - 2 * z), 40⟩ := by
    rw [new_spec, hlen, List.take_of_length_le (by rw [hlen]; norm_num), hbe]
    rfl
  have hN : (v + 1) * 2 ^ (39 - 2 * z) =
      (2 ^ z + (v + 1 - 2 ^ z)) * 2 ^ (40 - (z + 1 + z)) + 0 := by
    have h1 : 2 ^ z + (v + 1 - 2 ^ z) = v + 1 := by omega
    have h2 : 40 - (z + 1 + z) = 39 - 2 * z := by omega
    rw [h1, h2]
    omega
  obtain ⟨r', hdec⟩ := get_uvlc_aux_decode z z 0 21
    ⟨encodeUvlc v, 5, 0, 0, (v + 1) * 2 ^ (39 - 2 * z), 40⟩ (v + 1 - 2 ^ z) 0
    (by omega) (by omega) (by omega)
    (show z + 1 + z ≤ 40 by omega)
    (by omega)
    (show (0 : Nat) < 2 ^ (40 - (z + 1 + z)) from Nat.two_pow_pos _)
    (show (v + 1) * 2 ^ (39 - 2 * z) = _ from hN)
  have hvv : ((v + 1 - 2 ^ z : Nat) : Int) + 2 ^ z - 1 = (v : Int) := by
    rw [Nat.cast_sub hle]
    push_cast
    ring
  rw [hvv] at hdec
  refine ⟨r', ?_⟩
  rw [BitReader.get_uvlc, hr0]
  exact hdec

/-- Claim C3, witness at `v = 5` (encoding `00110`). -/
theorem claim_C3_witness :
    (5 : Nat) < 2 ^ 16 ∧
      ∃ r', (BitReader.new (encodeUvlc 5)).get_uvlc = some ((5 : Int), r') :=
  ⟨by norm_num, claim_C3 5 (by norm_num)⟩

/-- Claim C4: for every reader whose next bits contain more than 20 leading
zero bits before the first set bit — the top 21 bits the reader will deliver
next are all zero, i.e. `nextbits < 2^(nextbits_cnt - 21)` with at least 21
bits buffered — `get_uvlc` returns the sentinel `UVLC_ERROR` (no exception, no
divergence), and `get_svlc` propagates the sentinel unchanged.  Any fresh
reader over a stream with more than 20 leading zero bits satisfies the
hypotheses, since the constructor buffers at least the first three bytes. -/
theorem claim_C4 (r : BitReader) (hc : 21 ≤ r.nextbits_cnt)
    (hN : r.nextbits < 2 ^ (r.nextbits_cnt - 21)) :
    ∃ r', r.get_uvlc = some (UVLC_ERROR, r') ∧
      r.get_svlc = some (UVLC_ERROR, r') := by
  obtain ⟨r', hz⟩ := get_uvlc_aux_zeros 21 0 r (by omega) (by omega) hc hN
  have huv : r.get_uvlc = some (UVLC_ERROR, r') := hz
  refine ⟨r', huv, ?_⟩
  rw [BitReader.get_svlc, huv]
  dsimp only
  rw [if_pos (Or.inr rfl)]

/-- Claim C4, witness: the fresh reader over the stream `00 00 04` — exactly 21
leading zero bits, then a set bit. -/
theorem claim_C4_witness :
    21 ≤ (BitReader.new [0, 0, 4]).nextbits_cnt ∧
      (BitReader.new [0, 0, 4]).nextbits <
        2 ^ ((BitReader.new [0, 0, 4]).nextbits_cnt - 21) ∧
      ∃ r', (BitReader.new [0, 0, 4]).get_uvlc = some (UVLC_ERROR, r') ∧
        (BitReader.new [0, 0, 4]).get_svlc = some (UVLC_ERROR, r') :=
  ⟨by decide, by decide, claim_C4 (BitReader.new [0, 0, 4]) (by decide) (by decide)⟩

/-! ### TS demuxer lemmas -/

instance : DecidablePred nonVideoChunk := fun ck => by
  unfold nonVideoChunk
  infer_instance

instance : DecidablePred wfVideoPacket := fun p => by
  unfold wfVideoPacket
  infer_instance

theorem tsChunks_nil (fuel : Nat) : tsChunks fuel [] = [] := by
  cases fuel <;> rfl

theorem tsChunks_cons_eq (fuel : Nat) (a : Nat) (t : List Nat) :
    tsChunks (fuel + 1) (a :: t) =
      (a :: t).take TS_PACKET_SIZE :: tsChunks fuel ((a :: t).drop TS_PACKET_SIZE) :=
  rfl

theorem mem_tsChunks_ne_nil : ∀ (fuel : Nat) (l : List Nat) (ck : List Nat),
    ck ∈ tsChunks fuel l → ck ≠ [] := by
  intro fuel
  induction fuel with
  | zero =>
    intro l ck h
    simp [tsChunks] at h
  | succ fuel ih =>
    intro l ck h
    cases l with
    | nil => rw [tsChunks_nil] at h; simp at h
    | cons a t =>
      rw [tsChunks_cons_eq] at h
      rcases List.mem_cons.1 h with h | h
      · subst h
        simp [TS_PACKET_SIZE, List.take_cons]
      · exact ih _ _ h

/-- A chunk that fails the sync or PID check is skipped: the loop state is
unchanged. -/
theorem processPacket_skip (st : List Nat × Bool) (ck : List Nat)
    (hne : ck ≠ []) (h : nonVideoChunk ck) : processPacket st ck = some st := by
  rcases ck with _ | ⟨a, t⟩
  · exact absurd rfl hne
  rcases h with h | ⟨hlen, hpid⟩
  · simp only [List.getD_cons_zero] at h
    simp [processPacket, h]
  · rcases t with _ | ⟨b, t2⟩
    · simp at hlen
    rcases t2 with _ | ⟨d, t3⟩
    · simp at hlen
    simp only [List.getD_cons_zero, List.getD_cons_succ] at hpid
    by_cases ha : a = 0x47
    · subst ha
      simp [processPacket, hpid]
    · simp [processPacket, ha]

theorem extractLoop_skip : ∀ (chunks : List (List Nat)) (nal : List Nat) (started : Bool),
    (∀ ck ∈ chunks, ck ≠ [] ∧ nonVideoChunk ck) →
    extractLoop chunks nal started = some nal := by
  intro chunks
  induction chunks with
  | nil => intro nal started _; rfl
  | cons p ps ih =>
    intro nal started h
    have hp := h p (by simp)
    rw [extractLoop, processPacket_skip (nal, started) p hp.1 hp.2]
    exact ih nal started (fun ck hc => h ck (by simp [hc]))

/-! ### Claim C9 -/

/-- Claim C9: on an input in which every packet chunk fails the sync-byte or
PID check, the demuxer returns the empty buffer, and `process_ts_file` takes
the early `return None` ("Failed to extract NAL data") — the not-found result —
before the locator or decoder stage can run; the empty buffer is not an
error. -/
theorem claim_C9 (data : List Nat)
    (h : ∀ ck ∈ tsChunks data.length data, nonVideoChunk ck) :
    extract_h265_nal_from_ts data = some [] ∧ process_ts_file data = some none := by
  have hex : extract_h265_nal_from_ts data = some [] := by
    rw [extract_h265_nal_from_ts]
    exact extractLoop_skip _ [] false
      (fun ck hc => ⟨mem_tsChunks_ne_nil data.length data ck hc, h ck hc⟩)
  refine ⟨hex, ?_⟩
  rw [process_ts_file, hex]
  rfl

/-- Claim C9, witness: a 2-byte buffer whose only chunk has a wrong sync
byte. -/
theorem claim_C9_witness :
    (∀ ck ∈ tsChunks ([18, 52] : List Nat).length [18, 52], nonVideoChunk ck) ∧
      extract_h265_nal_from_ts [18, 52] = some [] ∧
        process_ts_file [18, 52] = some none :=
  ⟨by decide, claim_C9 [18, 52] (by decide)⟩

/-! ### Claim C6 -/

theorem tsChunks_join : ∀ (packets : List (List Nat)) (fuel : Nat),
    (∀ p ∈ packets, p.length = 188) → (packets.flatten).length ≤ fuel →
    tsChunks fuel packets.flatten = packets := by
  intro packets
  induction packets with
  | nil =>
    intro fuel _ _
    simp [tsChunks_nil]
  | cons p ps ih =>
    intro fuel h hf
    have hp : p.length = 188 := h p (by simp)
    have hjoin : (p :: ps).flatten = p ++ ps.flatten := by simp
    rw [hjoin] at hf ⊢
    rcases p with _ | ⟨a, t⟩
    · simp at hp
    obtain ⟨f, rfl⟩ : ∃ f, fuel = f + 1 := ⟨fuel - 1, by
      simp only [List.length_append, List.length_cons] at hf hp
      omega⟩
    rw [show (a :: t) ++ ps.flatten = a :: (t ++ ps.flatten) from rfl, tsChunks_cons_eq,
      show a :: (t ++ ps.flatten) = (a :: t) ++ ps.flatten from rfl,
      List.take_left' (show (a :: t).length = TS_PACKET_SIZE from hp),
      List.drop_left' (show (a :: t).length = TS_PACKET_SIZE from hp)]
    rw [ih f (fun q hq => h q (by simp [hq])) (by
      simp only [List.length_append] at hf
      omega)]

theorem not_isVideoPacket_skip (p : List Nat) (hp : p.length = 188)
    (hfp : ¬isVideoPacket p = true) : nonVideoChunk p := by
  rw [isVideoPacket] at hfp
  simp only [Bool.and_eq_true, beq_iff_eq] at hfp
  rw [not_and_or] at hfp
  rcases hfp with h1 | h2
  · exact Or.inl h1
  · exact Or.inr ⟨by omega, h2⟩

theorem extractLoop_filter : ∀ (packets : List (List Nat)) (nal : List Nat) (started : Bool),
    (∀ p ∈ packets, p.length = 188) →
    extractLoop packets nal started =
      extractLoop (packets.filter isVideoPacket) nal started := by
  intro packets
  induction packets with
  | nil => intro nal started _; rfl
  | cons p ps ih =>
    intro nal started h
    have hp : p.length = 188 := h p (by simp)
    have hps : ∀ q ∈ ps, q.length = 188 := fun q hq => h q (by simp [hq])
    rw [List.filter_cons]
    by_cases hfp : isVideoPacket p = true
    · rw [if_pos hfp, extractLoop, extractLoop]
      cases hpp : processPacket (nal, started) p with
      | none => rfl
      | some st1 =>
        obtain ⟨nal1, s1⟩ := st1
        exact ih nal1 s1 hps
    · rw [if_neg hfp, extractLoop,
        processPacket_skip (nal, started) p
          (by intro hnil; rw [hnil] at hp; simp at hp)
          (not_isVideoPacket_skip p hp hfp)]
      exact ih nal started hps

/-- Claim C6: for every stream made of whole 188-byte packets, the demuxer
output contains payload bytes only from packets whose 13-bit PID (low 5 bits of
byte 1 concatenated with byte 2) equals the target `VIDEO_PID = 0x100`, and in
original packet order: demuxing the whole stream gives the same result as
demuxing just the subsequence of PID-matching packets. -/
theorem claim_C6 (packets : List (List Nat)) (h : ∀ p ∈ packets, p.length = 188) :
    extract_h265_nal_from_ts packets.flatten =
      extract_h265_nal_from_ts (packets.filter isVideoPacket).flatten := by
  rw [extract_h265_nal_from_ts, extract_h265_nal_from_ts,
    tsChunks_join packets _ h le_rfl,
    tsChunks_join (packets.filter isVideoPacket) _
      (fun p hp => h p (List.mem_of_mem_filter hp)) le_rfl]
  exact extractLoop_filter packets [] false h

set_option maxRecDepth 8192 in
/-- Claim C6, witness: one target-PID packet interleaved with one packet of a
different PID (0x042). -/
theorem claim_C6_witness :
    (∀ p ∈ [0x47 :: 0x41 :: 0x00 :: 0x10 :: List.replicate 184 7,
        0x47 :: 0x00 :: 0x42 :: 0x10 :: List.replicate 184 9], p.length = 188) ∧
      extract_h265_nal_from_ts
          ([0x47 :: 0x41 :: 0x00 :: 0x10 :: List.replicate 184 7,
            0x47 :: 0x00 :: 0x42 :: 0x10 :: List.replicate 184 9] :
            List (List Nat)).flatten =
        extract_h265_nal_from_ts
          (([0x47 :: 0x41 :: 0x00 :: 0x10 :: List.replicate 184 7,
             0x47 :: 0x00 :: 0x42 :: 0x10 :: List.replicate 184 9] :
             List (List Nat)).filter isVideoPacket).flatten :=
  ⟨by decide, claim_C6 _ (by decide)⟩

/-! ### Claim C2 -/

/-- Claim C2, counterexample: the 3-byte truncated packet `47 01 00` passes the
sync-byte check and has PID `0x100`, so the loop dereferences `packet[3]`,
which raises `IndexError` in Python (modelled by `none`): truncation is fatal
here, refuting "completes without raising for every input". -/
theorem claim_C2_counterexample :
    extract_h265_nal_from_ts [0x47, 0x01, 0x00] = none := by
  decide

theorem processPacket_safe (st : List Nat × Bool) (ck : List Nat)
    (h : chunkSafe ck = true) : (processPacket st ck).isSome := by
  rw [chunkSafe] at h
  rw [processPacket]
  cases h0 : ck[0]? with
  | none => rw [h0] at h; simp at h
  | some b0 =>
    rw [h0] at h
    dsimp only at h ⊢
    by_cases hb0 : b0 = 0x47
    · subst hb0
      rw [if_neg (by simp)]
      simp only [bne_self_eq_false, Bool.false_or] at h
      cases h1 : ck[1]? with
      | none =>
        rw [h1] at h
        cases h2 : ck[2]? with
        | none => rw [h2] at h; simp at h
        | some b2 => rw [h2] at h; simp at h
      | some b1 =>
        rw [h1] at h
        cases h2 : ck[2]? with
        | none => rw [h2] at h; simp at h
        | some b2 =>
          rw [h2] at h
          dsimp only at h ⊢
          by_cases hpid : ((b1 &&& 0x1F) <<< 8) ||| b2 = VIDEO_PID
          · rw [hpid] at h ⊢
            rw [if_neg (by simp)]
            simp only [bne_self_eq_false, Bool.false_or] at h
            cases h3 : ck[3]? with
            | none => rw [h3] at h; simp at h
            | some b3 =>
              rw [h3] at h
              dsimp only at h ⊢
              cases hps : (if b3 &&& 0x20 ≠ 0 then (ck[4]?).map (fun b4 => 4 + 1 + b4)
                  else some 4) with
              | none => rw [hps] at h; simp at h
              | some ps =>
                rw [hps] at h
                dsimp only at h ⊢
                by_cases hps188 : TS_PACKET_SIZE ≤ ps
                · rw [if_pos hps188]
                  simp
                · rw [if_neg hps188]
                  rw [Bool.or_eq_true, decide_eq_true_eq] at h
                  rcases h with h | h
                  · exact absurd h hps188
                  · by_cases hpus : b1 &&& 0x40 ≠ 0
                    · rw [if_pos hpus]
                      rw [if_pos hpus] at h
                      by_cases hsig : (ck.drop ps).take 3 = [0, 0, 1]
                      · rw [if_pos hsig]
                        rw [if_pos hsig] at h
                        cases h8 : ck[ps + 8]? with
                        | none => rw [h8] at h; simp at h
                        | some b8 => simp
                      · rw [if_neg hsig]
                        simp
                    · rw [if_neg hpus]
                      simp
          · rw [if_pos hpid]
            simp
    · rw [if_pos hb0]
      simp

theorem extractLoop_safe : ∀ (chunks : List (List Nat)) (nal : List Nat) (started : Bool),
    (∀ ck ∈ chunks, chunkSafe ck = true) →
    (extractLoop chunks nal started).isSome := by
  intro chunks
  induction chunks with
  | nil => intro nal started _; simp [extractLoop]
  | cons p ps ih =>
    intro nal started h
    rw [extractLoop]
    have hsafe := processPacket_safe (nal, started) p (h p (by simp))
    cases hpp : processPacket (nal, started) p with
    | none => rw [hpp] at hsafe; simp at hsafe
    | some st1 =>
      obtain ⟨nal1, s1⟩ := st1
      exact ih nal1 s1 (fun ck hc => h ck (by simp [hc]))

/-- Claim C2 (amended): the demuxer completes without raising and returns a
(possibly empty) buffer on every input whose 188-byte chunks each either fail
the sync-byte check, fail the PID check, or contain every byte the header
processing reads (`chunkSafe`); in particular an input shorter than one packet
with a non-0x47 first byte is handled.  A truncated packet that passes the
sync and PID checks but lacks a header byte the loop reads raises `IndexError`
(see the counterexample), so truncation can be fatal. -/
theorem claim_C2_amended (ts_stream : List Nat)
    (h : ∀ ck ∈ tsChunks ts_stream.length ts_stream, chunkSafe ck = true) :
    ∃ out, extract_h265_nal_from_ts ts_stream = some out := by
  have := extractLoop_safe (tsChunks ts_stream.length ts_stream) [] false h
  rw [extract_h265_nal_from_ts]
  exact Option.isSome_iff_exists.1 this

/-- Claim C2, witness: the 1-byte input `[0x00]` (shorter than one packet,
failing the sync check). -/
theorem claim_C2_witness :
    (∀ ck ∈ tsChunks ([0x00] : List Nat).length [0x00], chunkSafe ck = true) ∧
      ∃ out, extract_h265_nal_from_ts [0x00] = some out :=
  ⟨by decide, claim_C2_amended [0x00] (by decide)⟩

/-! ### Claim C7 -/

/-- A well-formed video packet is processed to exactly its payload bytes,
preceded by a start code when a payload-unit start has been seen before, and
the `start_of_nal` flag is raised iff this packet has the unit-start bit. -/
theorem processPacket_video (st : List Nat × Bool) (p : List Nat)
    (hwf : wfVideoPacket p) :
    processPacket st p =
      some ((if pusFlag p then
               (if st.2 then st.1 ++ [0, 0, 1] else st.1) ++ payloadBytes p
             else st.1 ++ payloadBytes p),
        if pusFlag p then true else st.2) := by
  obtain ⟨hlen, hb0, hpid, hpstart, hpes⟩ := hwf
  have hget : ∀ i, i < 188 → p[i]? = some (p.getD i 0) := by
    intro i hi
    rw [List.getD_eq_getElem?_getD, List.getElem?_eq_getElem (by omega : i < p.length)]
    rfl
  rw [processPacket, hget 0 (by norm_num)]
  dsimp only
  rw [hb0, if_neg (by norm_num), hget 1 (by norm_num), hget 2 (by norm_num)]
  dsimp only
  rw [hpid, if_neg (by norm_num), hget 3 (by norm_num)]
  dsimp only
  have hmatch : (if p.getD 3 0 &&& 0x20 ≠ 0 then (p[4]?).map (fun b4 => 4 + 1 + b4)
      else some 4) = some (payloadStart p) := by
    rw [payloadStart, hget 4 (by norm_num), Option.map_some', apply_ite some]
  rw [hmatch]
  dsimp only
  rw [if_neg (show ¬TS_PACKET_SIZE ≤ payloadStart p from Nat.not_le.2 hpstart)]
  by_cases hpus : p.getD 1 0 &&& 0x40 ≠ 0
  · have hpfl : pusFlag p = true := by
      rw [pusFlag, bne_iff_ne]
      exact hpus
    rw [if_pos hpus]
    simp only [hpfl, if_true]
    rw [payloadBytes]
    simp only [hpfl, if_true]
    by_cases hsig : (p.drop (payloadStart p)).take 3 = [0, 0, 1]
    · rw [if_pos hsig, hget (payloadStart p + 8) (hpes ⟨hpfl, hsig⟩)]
      dsimp only
      rw [pesStart, if_pos hsig]
    · rw [if_neg hsig, pesStart, if_neg hsig]
  · have hpfl : pusFlag p = false := by
      rw [pusFlag, bne_eq_false_iff_eq]
      omega
    rw [if_neg hpus]
    simp only [hpfl, Bool.false_eq_true, if_false]
    rw [payloadBytes]
    simp only [hpfl, Bool.false_eq_true, if_false]

theorem extractLoop_assemble : ∀ (packets : List (List Nat)) (nal : List Nat)
    (started : Bool), (∀ p ∈ packets, wfVideoPacket p) →
    extractLoop packets nal started = some (nal ++ specAssemble packets started) := by
  intro packets
  induction packets with
  | nil =>
    intro nal started _
    simp [extractLoop, specAssemble]
  | cons p ps ih =>
    intro nal started h
    rw [extractLoop, processPacket_video (nal, started) p (h p (by simp))]
    dsimp only
    rw [specAssemble]
    cases hpf : pusFlag p with
    | true =>
      simp only [hpf, if_true]
      rw [ih _ _ (fun q hq => h q (by simp [hq]))]
      cases started <;> simp
    | false =>
      simp only [hpf, Bool.false_eq_true, if_false]
      rw [ih _ _ (fun q hq => h q (by simp [hq]))]
      simp

/-- Claim C7 (refinement against the spec-modelled assembler `specAssemble`):
on a stream of well-formed target-PID packets, every payload-unit start after
the first inserts exactly the 3 bytes `00 00 01` immediately before that
unit's payload, and no start code precedes the very first detected unit
start. -/
theorem claim_C7 (packets : List (List Nat)) (h : ∀ p ∈ packets, wfVideoPacket p) :
    extract_h265_nal_from_ts packets.flatten = some (specAssemble packets false) := by
  rw [extract_h265_nal_from_ts, tsChunks_join packets _ (fun p hp => (h p hp).1) le_rfl]
  simpa using extractLoop_assemble packets [] false h

set_option maxRecDepth 8192 in
/-- Claim C7, witness: two unit-start packets. -/
theorem claim_C7_witness :
    (∀ p ∈ [0x47 :: 0x41 :: 0x00 :: 0x10 :: List.replicate 184 0,
        0x47 :: 0x41 :: 0x00 :: 0x10 :: List.replicate 184 0], wfVideoPacket p) ∧
      extract_h265_nal_from_ts
          ([0x47 :: 0x41 :: 0x00 :: 0x10 :: List.replicate 184 0,
            0x47 :: 0x41 :: 0x00 :: 0x10 :: List.replicate 184 0] :
            List (List Nat)).flatten =
        some (specAssemble
          [0x47 :: 0x41 :: 0x00 :: 0x10 :: List.replicate 184 0,
           0x47 :: 0x41 :: 0x00 :: 0x10 :: List.replicate 184 0] false) :=
  ⟨by decide, claim_C7 _ (by decide)⟩

/-! ### Claim C5 -/

theorem readFovLoop_length : ∀ (n : Nat) (r : BitReader) (acc fovs : List FieldOfViewInfo)
    (r' : BitReader), readFovLoop n r acc = some (fovs, r') →
    fovs.length = acc.length + n := by
  intro n
  induction n with
  | zero =>
    intro r acc fovs r' h
    rw [readFovLoop] at h
    simp only [Option.some.injEq, Prod.mk.injEq] at h
    rw [← h.1]
    omega
  | succ n ih =>
    intro r acc fovs r' h
    rw [readFovLoop] at h
    cases h1 : r.get_bits 16 with
    | none => rw [h1] at h; simp at h
    | some x1 =>
      obtain ⟨tlx, r1⟩ := x1
      rw [h1] at h
      dsimp only at h
      cases h2 : r1.get_bits 1 with
      | none => rw [h2] at h; simp at h
      | some x2 =>
        obtain ⟨m1, r2⟩ := x2
        rw [h2] at h
        dsimp only at h
        cases h3 : r2.get_bits 16 with
        | none => rw [h3] at h; simp at h
        | some x3 =>
          obtain ⟨tly, r3⟩ := x3
          rw [h3] at h
          dsimp only at h
          cases h4 : r3.get_bits 1 with
          | none => rw [h4] at h; simp at h
          | some x4 =>
            obtain ⟨m2, r4⟩ := x4
            rw [h4] at h
            dsimp only at h
            cases h5 : r4.get_bits 16 with
            | none => rw [h5] at h; simp at h
            | some x5 =>
              obtain ⟨brx, r5⟩ := x5
              rw [h5] at h
              dsimp only at h
              cases h6 : r5.get_bits 1 with
              | none => rw [h6] at h; simp at h
              | some x6 =>
                obtain ⟨m3, r6⟩ := x6
                rw [h6] at h
                dsimp only at h
                cases h7 : r6.get_bits 16 with
                | none => rw [h7] at h; simp at h
                | some x7 =>
                  obtain ⟨bry, r7⟩ := x7
                  rw [h7] at h
                  dsimp only at h
                  cases h8 : r7.get_bits 1 with
                  | none => rw [h8] at h; simp at h
                  | some x8 =>
                    obtain ⟨m4, r8⟩ := x8
                    rw [h8] at h
                    dsimp only at h
                    cases h9 : r8.get_bits 4 with
                    | none => rw [h9] at h; simp at h
                    | some x9 =>
                      obtain ⟨m5, r9⟩ := x9
                      rw [h9] at h
                      dsimp only at h
                      have := ih r9 _ fovs r' h
                      simp only [List.length_append, List.length_cons,
                        List.length_nil] at this
                      omega

/-- Claim C5, counterexample: over a buffer holding exactly the 16 tag bytes,
the tag read succeeds and matches, yet the decoder raises (`get_bits(2)` on the
exhausted buffer) instead of returning a record — the claimed dichotomy "tag
matches and a full record is returned, or tag mismatch" fails on this input
(no partial record is exposed, but no record is returned either). -/
theorem claim_C5_counterexample :
    read_sei_6dof (BitReader.new sixDofTag) = none ∧
      readUuid 16 (BitReader.new sixDofTag) [] =
        some (sixDofTag, ⟨sixDofTag, 16, 0, 0, 0, 0⟩) := by
  constructor <;> decide

/-- Claim C5 (amended): the SEI decoder is all-or-nothing — for every input
reader, either the decode is abandoned with an exception (Python raise,
modelled `none`), or the tag mismatched and exactly `(None, [])` is returned,
or a record with every field populated is returned whose tag matched and whose
`FieldOfView` sequence has length exactly `camera_number` (in particular
`camera_number = 0` yields the empty sequence).  No partially-filled record is
ever exposed. -/
theorem claim_C5_amended (r0 : BitReader) :
    read_sei_6dof r0 = none ∨ read_sei_6dof r0 = some (none, []) ∨
      ∃ sei fovs, read_sei_6dof r0 = some (some sei, fovs) ∧
        sei.uuid_string = sixDofTag ∧
        sei.stitching_layout.isSome = true ∧ sei.camera_model.isSome = true ∧
        sei.background_depth_flag.isSome = true ∧
        sei.arrangement_flag.isSome = true ∧
        fovs.length = sei.camera_number := by
  rw [read_sei_6dof]
  cases hu : readUuid 16 r0 [] with
  | none => exact Or.inl rfl
  | some xu =>
    obtain ⟨uuid, r1⟩ := xu
    dsimp only
    by_cases htag : uuid ≠ sixDofTag
    · rw [if_pos htag]
      exact Or.inr (Or.inl rfl)
    · rw [if_neg htag]
      push_neg at htag
      cases hb1 : r1.get_bits 2 with
      | none => exact Or.inl rfl
      | some x1 =>
        obtain ⟨stitching_layout, r2⟩ := x1
        dsimp only
        cases hb2 : r2.get_bits 16 with
        | none => exact Or.inl rfl
        | some x2 =>
          obtain ⟨camera_number, r3⟩ := x2
          dsimp only
          cases hb3 : r3.get_bits 2 with
          | none => exact Or.inl rfl
          | some x3 =>
            obtain ⟨camera_model, r4⟩ := x3
            dsimp only
            cases hb4 : r4.get_bits 1 with
            | none => exact Or.inl rfl
            | some x4 =>
              obtain ⟨mk1, r5⟩ := x4
              dsimp only
              cases hb5 : r5.get_bits 16 with
              | none => exact Or.inl rfl
              | some x5 =>
                obtain ⟨camera_resolution_x, r6⟩ := x5
                dsimp only
                cases hb6 : r6.get_bits 1 with
                | none => exact Or.inl rfl
                | some x6 =>
                  obtain ⟨mk2, r7⟩ := x6
                  dsimp only
                  cases hb7 : r7.get_bits 16 with
                  | none => exact Or.inl rfl
                  | some x7 =>
                    obtain ⟨camera_resolution_y, r8⟩ := x7
                    dsimp only
                    cases hb8 : r8.get_bits 1 with
                    | none => exact Or.inl rfl
                    | some x8 =>
                      obtain ⟨mk3, r9⟩ := x8
                      dsimp only
                      cases hb9 : r9.get_bits 16 with
                      | none => exact Or.inl rfl
                      | some x9 =>
                        obtain ⟨video_resolution_x, r10⟩ := x9
                        dsimp only
                        cases hb10 : r10.get_bits 1 with
                        | none => exact Or.inl rfl
                        | some x10 =>
                          obtain ⟨mk4, r11⟩ := x10
                          dsimp only
                          cases hb11 : r11.get_bits 16 with
                          | none => exact Or.inl rfl
                          | some x11 =>
                            obtain ⟨video_resolution_y, r12⟩ := x11
                            dsimp only
                            cases hb12 : r12.get_bits 1 with
                            | none => exact Or.inl rfl
                            | some x12 =>
                              obtain ⟨mk5, r13⟩ := x12
                              dsimp only
                              cases hb13 : r13.get_bits 8 with
                              | none => exact Or.inl rfl
                              | some x13 =>
                                obtain ⟨texture_padding_size, r14⟩ := x13
                                dsimp only
                                cases hb14 : r14.get_bits 1 with
                                | none => exact Or.inl rfl
                                | some x14 =>
                                  obtain ⟨background_texture_flag, r15⟩ := x14
                                  dsimp only
                                  cases hb15 : r15.get_bits 1 with
                                  | none => exact Or.inl rfl
                                  | some x15 =>
                                    obtain ⟨background_depth_flag, r16⟩ := x15
                                    dsimp only
                                    cases hb16 : r16.get_bits 1 with
                                    | none => exact Or.inl rfl
                                    | some x16 =>
                                      obtain ⟨mk6, r17⟩ := x16
                                      dsimp only
                                      cases hb17 : r17.get_bits 1 with
                                      | none => exact Or.inl rfl
                                      | some x17 =>
                                        obtain ⟨arrangement_flag, r18⟩ := x17
                                        dsimp only
                                        cases hb18 : r18.get_bits 8 with
                                        | none => exact Or.inl rfl
                                        | some x18 =>
                                          obtain ⟨horizontal_half_fov, r19⟩ := x18
                                          dsimp only
                                          cases hb19 : r19.get_bits 3 with
                                          | none => exact Or.inl rfl
                                          | some x19 =>
                                            obtain ⟨rsv, r20⟩ := x19
                                            dsimp only
                                            cases hf : readFovLoop camera_number r20 [] with
                                            | none => exact Or.inl rfl
                                            | some xf =>
                                              obtain ⟨fov_info_array, rLast⟩ := xf
                                              dsimp only
                                              refine Or.inr (Or.inr
                                                ⟨_, fov_info_array, rfl, htag,
                                                  rfl, rfl, rfl, rfl, ?_⟩)
                                              have hlenf := readFovLoop_length
                                                camera_number r20 [] fov_info_array rLast hf
                                              simpa using hlenf

end GridPlayer
